import Mathlib

/-!
Verification development for the two scripts of the repository:
icloud_photo_uploader.py (a JPEG uploader with a SQLite todo store giving
idempotent retry bookkeeping) and icloud_media_lister.py (a size-sorted
media report).  The todo store, the scanner, the upload call and the two
main pipelines are shallowly embedded below; filesystem walking and the
cloud API are abstracted into explicit inputs.
-/

namespace PhotoUploader

/-- A row of the todo_photos table: photo_path TEXT UNIQUE NOT NULL and
status TEXT DEFAULT pending.  The id and added_at columns are never
consulted by any query of the script and are omitted. -/
structure Record where
  photo_path : String
  status : String
deriving DecidableEq

/-- The todo store: the rows of todo_photos in insertion order. -/
abbrev TodoStore := List Record

/-- Embeds remove_from_todo: UPDATE todo_photos SET status = completed
WHERE photo_path = p. -/
def remove_from_todo (p : String) (store : TodoStore) : TodoStore :=
  store.map (fun r => if r.photo_path = p then { r with status := "completed" } else r)

/-- True when some row of the store has the given path. -/
def hasPath (store : TodoStore) (p : String) : Bool :=
  store.any (fun r => r.photo_path == p)

/-- One INSERT OR IGNORE INTO todo_photos (photo_path) VALUES (p): a fresh
row gets the default status pending, a duplicate path is skipped. -/
def insertOrIgnore (store : TodoStore) (p : String) : TodoStore :=
  if hasPath store p then store else store ++ [⟨p, "pending"⟩]

/-- Embeds add_to_todo: executemany of INSERT OR IGNORE over the paths in
order. -/
def add_to_todo (paths : List String) (store : TodoStore) : TodoStore :=
  paths.foldl insertOrIgnore store

/-- Embeds read_todo_list: SELECT photo_path FROM todo_photos WHERE
status = pending, in row order. -/
def read_todo_list (store : TodoStore) : List String :=
  (store.filter (fun r => r.status == "pending")).map (fun r => r.photo_path)

/-- One bucket of get_todo_stats (SELECT status, COUNT(*) GROUP BY status):
the number of rows carrying the given status. -/
def countStatus (store : TodoStore) (st : String) : Nat :=
  (store.filter (fun r => r.status == st)).length

/-- The row holding the given path, when present.  Under the UNIQUE
constraint the first match is the only match. -/
def findRecord (store : TodoStore) (p : String) : Option Record :=
  store.find? (fun r => r.photo_path == p)

/-- Number of rows holding the given path. -/
def countPath (store : TodoStore) (p : String) : Nat :=
  (store.filter (fun r => r.photo_path == p)).length

/-- The UNIQUE constraint of the photo_path column: no two rows share a
path. -/
abbrev PathsNodup (store : TodoStore) : Prop :=
  (store.map (fun r => r.photo_path)).Nodup

/-- Environment of the cloud calls made by upload_photo: the album titles
visible through api.photos.albums, whether create_album followed by the
refresh makes a missing album visible, and whether the raw upload call on a
given path succeeds (false models the exception path of the try block). -/
structure CloudEnv where
  albums : List String
  createSucceeds : Bool
  uploadSucceeds : String → Bool

/-- One cloud API call performed by upload_photo. -/
inductive ApiCall where
  | listAlbums
  | createAlbum (name : String)
  | albumAdd (album : String) (path : String)
  | uploadFile (path : String)
deriving DecidableEq

/-- Result of upload_photo: the returned boolean, the todo store after the
call, and the cloud calls performed in order. -/
structure UploadResult where
  ok : Bool
  store : TodoStore
  calls : List ApiCall
deriving DecidableEq

/-- Embeds upload_photo.  With an album name the albums are listed, the
album is created when missing and listed again, and the photo is added to
it; with no album name the photo goes to Camera Roll via
api.photos.upload_file.  On success the path is marked completed via
remove_from_todo and true is returned; every failure returns false and
leaves the store untouched. -/
def upload_photo (env : CloudEnv) (p : String) (albumName : Option String)
    (store : TodoStore) : UploadResult :=
  match albumName with
  | none =>
      if env.uploadSucceeds p then
        ⟨true, remove_from_todo p store, [ApiCall.uploadFile p]⟩
      else
        ⟨false, store, [ApiCall.uploadFile p]⟩
  | some name =>
      if env.albums.contains name then
        if env.uploadSucceeds p then
          ⟨true, remove_from_todo p store, [ApiCall.listAlbums, ApiCall.albumAdd name p]⟩
        else
          ⟨false, store, [ApiCall.listAlbums, ApiCall.albumAdd name p]⟩
      else
        let refreshed := if env.createSucceeds then env.albums ++ [name] else env.albums
        if refreshed.contains name then
          if env.uploadSucceeds p then
            ⟨true, remove_from_todo p store,
              [ApiCall.listAlbums, ApiCall.createAlbum name, ApiCall.listAlbums,
                ApiCall.albumAdd name p]⟩
          else
            ⟨false, store,
              [ApiCall.listAlbums, ApiCall.createAlbum name, ApiCall.listAlbums,
                ApiCall.albumAdd name p]⟩
        else
          ⟨false, store,
            [ApiCall.listAlbums, ApiCall.createAlbum name, ApiCall.listAlbums]⟩

/-- PHOTO_EXTENSIONS: only JPEG files are supported. -/
def PHOTO_EXTENSIONS : List String := [".jpg", ".jpeg"]

/-- Characters after the last slash of a path (the final component, as
pathlib exposes it for the paths os.walk produces). -/
def nameChars (p : List Char) : List Char :=
  match p.reverse.findIdx? (fun c => c == '/') with
  | none => p
  | some r => p.drop (p.length - r)

/-- The pathlib suffix of a final component: the part from the last dot on,
provided that dot is neither the first nor the last character; empty
otherwise. -/
def suffixChars (name : List Char) : List Char :=
  match name.reverse.findIdx? (fun c => c == '.') with
  | none => []
  | some r =>
      let i := name.length - 1 - r
      if 0 < i ∧ i + 1 < name.length then name.drop i else []

/-- Path(file_path).suffix as a string. -/
def pathSuffix (p : String) : String :=
  String.mk (suffixChars (nameChars p.toList))

/-- ASCII lower-casing of a string, character by character, as str.lower
acts on the ASCII-only extensions compared here. -/
def lowerString (s : String) : String :=
  String.mk (s.toList.map Char.toLower)

/-- Embeds is_photo_file: the suffix, lower-cased, is in
PHOTO_EXTENSIONS. -/
def is_photo_file (p : String) : Bool :=
  PHOTO_EXTENSIONS.contains (lowerString (pathSuffix p))

/-- Embeds scan_directory over an abstract directory: none is a missing
directory (the function logs and returns the empty list); some files is the
full list of file paths yielded by the recursive os.walk, of which exactly
the JPEG files are kept, in walk order. -/
def scan_directory (dir : Option (List String)) : List String :=
  match dir with
  | none => []
  | some files => files.filter is_photo_file

/-- The mutually exclusive command-line mode of the uploader. -/
inductive Mode where
  | directory (dir : Option (List String))
  | retry
  | stats

/-- Observable outcome of main: the exit code, the final todo store,
whether authentication was reached, the photos submitted for upload, and
the two counts printed in stats mode. -/
structure MainResult where
  exitCode : Nat
  store : TodoStore
  authAttempted : Bool
  uploaded : List String
  pendingReported : Option Nat
  completedReported : Option Nat
deriving DecidableEq

/-- The upload loop of main: every photo is handed to upload_photo against
the shared store and the successes and failures are counted. -/
def runUploads (env : CloudEnv) (albumName : Option String)
    (photos : List String) (store : TodoStore) : Nat × Nat × TodoStore :=
  photos.foldl
    (fun acc p =>
      let res := upload_photo env p albumName acc.2.2
      if res.ok then (acc.1 + 1, acc.2.1, res.store) else (acc.1, acc.2.1 + 1, res.store))
    (0, 0, store)

/-- The tail of main once the photo list and the updated store are fixed:
authenticate, then upload; exit 0 exactly when no upload failed, exit 1
with no task submitted when authentication fails. -/
def runPipeline (authOk : Bool) (env : CloudEnv) (albumName : Option String)
    (photos : List String) (store : TodoStore) : MainResult :=
  if authOk then
    let r := runUploads env albumName photos store
    ⟨if r.2.1 = 0 then 0 else 1, r.2.2, true, photos, none, none⟩
  else
    ⟨1, store, true, [], none, none⟩

/-- Embeds main.  Stats mode prints the pending and completed counts from
get_todo_stats and returns 0 touching nothing else; otherwise a username is
required, the photo list comes from read_todo_list (retry mode) or from a
directory scan persisted with add_to_todo (directory mode), an empty list
exits 1, and the pipeline then authenticates and uploads. -/
def main (mode : Mode) (hasUsername : Bool) (authOk : Bool) (env : CloudEnv)
    (albumName : Option String) (store0 : TodoStore) : MainResult :=
  match mode with
  | Mode.stats =>
      ⟨0, store0, false, [], some (countStatus store0 ("pending")),
        some (countStatus store0 ("completed"))⟩
  | Mode.retry =>
      if hasUsername then
        let photos := read_todo_list store0
        if photos.isEmpty then ⟨1, store0, false, [], none, none⟩
        else runPipeline authOk env albumName photos store0
      else ⟨1, store0, false, [], none, none⟩
  | Mode.directory dir =>
      if hasUsername then
        let photos := scan_directory dir
        if photos.isEmpty then ⟨1, store0, false, [], none, none⟩
        else runPipeline authOk env albumName photos (add_to_todo photos store0)
      else ⟨1, store0, false, [], none, none⟩

end PhotoUploader

namespace MediaLister

/-- One media item as assembled by get_media_info: the filename, the size
in bytes, and the duration attribute whose presence marks a video. -/
structure MediaItem where
  filename : String
  size : Nat
  duration : Option Nat
deriving DecidableEq

/-- A media item is a video exactly when it carries a duration
attribute. -/
def isVideo (m : MediaItem) : Bool := m.duration.isSome

/-- The type filter of get_media_info: photos drops every video, videos
keeps only videos (the Videos smart folder, or the fallback filter), all
keeps everything. -/
def filterByType (mediaType : String) (media : List MediaItem) : List MediaItem :=
  if mediaType = "photos" then media.filter (fun m => !(isVideo m))
  else if mediaType = "videos" then media.filter (fun m => isVideo m)
  else media

/-- The minimum-size filter of main: keep items of at least minBytes
bytes. -/
def filterMinSize (minBytes : Option Nat) (media : List MediaItem) : List MediaItem :=
  match minBytes with
  | none => media
  | some m => media.filter (fun x => m ≤ x.size)

/-- The size comparison of the report sort: largest first (sort on the size
key with reverse set). -/
def sizeGe (a b : MediaItem) : Bool := b.size ≤ a.size

/-- The limit step of main, applied only when a positive limit was
given. -/
def applyLimit (limit : Option Int) (media : List MediaItem) : List MediaItem :=
  match limit with
  | none => media
  | some n => if 0 < n then media.take n.toNat else media

/-- The reporting pipeline of main: filter by type, filter by minimum
size, sort by size largest first, apply the limit.  The detailed listing
prints exactly this list in order. -/
def listerPipeline (mediaType : String) (minBytes : Option Nat)
    (limit : Option Int) (media : List MediaItem) : List MediaItem :=
  applyLimit limit
    ((filterMinSize minBytes (filterByType mediaType media)).mergeSort sizeGe)

end MediaLister

namespace MediaLister

/-- A small concrete media list: two photos and one video. -/
def demoMedia : List MediaItem :=
  [⟨"a.jpg", 5, none⟩, ⟨"b.mov", 100, some 7⟩, ⟨"c.jpg", 50, none⟩]

end MediaLister

namespace PhotoUploader

/-- An environment in which every raw upload call fails. -/
def envFail : CloudEnv := ⟨[], true, fun _ => false⟩

/-- An environment in which every raw upload call succeeds. -/
def envOk : CloudEnv := ⟨[], true, fun _ => true⟩

/-- A small concrete store: one pending row and one completed row. -/
def demoStore : TodoStore := [⟨"a.jpg", "pending"⟩, ⟨"b.jpg", "completed"⟩]

theorem hasPath_iff (store : TodoStore) (p : String) :
    hasPath store p = true ↔ ∃ r, r ∈ store ∧ r.photo_path = p := by
  simp [hasPath, List.any_eq_true]

theorem insertOrIgnore_eq_append (store : TodoStore) (q : String) :
    insertOrIgnore store q =
      store ++ (if hasPath store q then [] else [⟨q, "pending"⟩]) := by
  unfold insertOrIgnore
  split <;> simp_all

theorem add_to_todo_shape (ps : List String) (store : TodoStore) :
    ∃ t, add_to_todo ps store = store ++ t ∧ ∀ r ∈ t, r.status = "pending" := by
  induction ps generalizing store with
  | nil => exact ⟨[], by simp [add_to_todo]⟩
  | cons q ps ih =>
    obtain ⟨t, ht, hall⟩ := ih (insertOrIgnore store q)
    rw [insertOrIgnore_eq_append] at ht
    refine ⟨(if hasPath store q then [] else [⟨q, "pending"⟩]) ++ t, ?_, ?_⟩
    · show add_to_todo ps (insertOrIgnore store q) =
        store ++ ((if hasPath store q then [] else [⟨q, "pending"⟩]) ++ t)
      rw [insertOrIgnore_eq_append, ← List.append_assoc]
      exact ht
    · intro r hr
      rcases List.mem_append.mp hr with h | h
      · split at h <;> simp_all
      · exact hall r h

theorem hasPath_insertOrIgnore (store : TodoStore) (q p : String) :
    hasPath (insertOrIgnore store q) p = true ↔ hasPath store p = true ∨ p = q := by
  rw [insertOrIgnore_eq_append]
  constructor
  · intro h
    rcases (hasPath_iff _ _).mp h with ⟨r, hr, hp⟩
    rcases List.mem_append.mp hr with h1 | h1
    · exact Or.inl ((hasPath_iff _ _).mpr ⟨r, h1, hp⟩)
    · refine Or.inr ?_
      split at h1
      · cases h1
      · simp at h1
        subst h1
        exact hp.symm
  · intro h
    rcases h with h | h
    · rcases (hasPath_iff _ _).mp h with ⟨r, hr, hp⟩
      exact (hasPath_iff _ _).mpr ⟨r, List.mem_append.mpr (Or.inl hr), hp⟩
    · subst h
      by_cases hq : hasPath store p
      · rcases (hasPath_iff _ _).mp hq with ⟨r, hr, hp⟩
        exact (hasPath_iff _ _).mpr ⟨r, List.mem_append.mpr (Or.inl hr), hp⟩
      · refine (hasPath_iff _ _).mpr ⟨⟨p, "pending"⟩, ?_, rfl⟩
        simp [hq]

theorem hasPath_add_to_todo (ps : List String) (store : TodoStore) (p : String) :
    hasPath (add_to_todo ps store) p = true ↔ hasPath store p = true ∨ p ∈ ps := by
  induction ps generalizing store with
  | nil => simp [add_to_todo]
  | cons q ps ih =>
    have : add_to_todo (q :: ps) store = add_to_todo ps (insertOrIgnore store q) := rfl
    rw [this, ih, hasPath_insertOrIgnore]
    simp only [List.mem_cons]
    tauto

theorem add_to_todo_id_of_all_present (ps : List String) (store : TodoStore)
    (h : ∀ p ∈ ps, hasPath store p = true) : add_to_todo ps store = store := by
  induction ps generalizing store with
  | nil => rfl
  | cons q ps ih =>
    have hq : hasPath store q = true := h q (List.mem_cons_self q ps)
    have : add_to_todo (q :: ps) store = add_to_todo ps (insertOrIgnore store q) := rfl
    rw [this]
    have hins : insertOrIgnore store q = store := by simp [insertOrIgnore, hq]
    rw [hins]
    exact ih store (fun p hp => h p (List.mem_cons_of_mem q hp))

theorem countPath_add_to_todo (ps : List String) (store : TodoStore) (p : String)
    (h : hasPath store p = true) :
    countPath (add_to_todo ps store) p = countPath store p := by
  induction ps generalizing store with
  | nil => rfl
  | cons q ps ih =>
    have hstep : add_to_todo (q :: ps) store = add_to_todo ps (insertOrIgnore store q) := rfl
    rw [hstep]
    have hkeep : hasPath (insertOrIgnore store q) p = true :=
      (hasPath_insertOrIgnore store q p).mpr (Or.inl h)
    rw [ih (insertOrIgnore store q) hkeep]
    rw [insertOrIgnore_eq_append]
    split
    · simp
    · rename_i hq
      have hpq : p ≠ q := by
        intro he
        subst he
        simp_all
      simp [countPath, List.filter_append, hpq.symm]

theorem findRecord_append_of_hasPath (store t : TodoStore) (p : String)
    (h : hasPath store p = true) : findRecord (store ++ t) p = findRecord store p := by
  rcases (hasPath_iff _ _).mp h with ⟨r, hr, hp⟩
  have hsome : (store.find? (fun r => r.photo_path == p)).isSome :=
    List.find?_isSome.mpr ⟨r, hr, by simp [hp]⟩
  rcases Option.isSome_iff_exists.mp hsome with ⟨x, hx⟩
  unfold findRecord
  rw [List.find?_append, hx]
  rfl

theorem findRecord_add_to_todo_of_hasPath (ps : List String) (store : TodoStore)
    (p : String) (h : hasPath store p = true) :
    findRecord (add_to_todo ps store) p = findRecord store p := by
  obtain ⟨t, ht, -⟩ := add_to_todo_shape ps store
  rw [ht]
  exact findRecord_append_of_hasPath store t p h

theorem findRecord_add_to_todo_fresh (ps : List String) (store : TodoStore)
    (p : String) (hmem : p ∈ ps) (h : hasPath store p = false) :
    findRecord (add_to_todo ps store) p = some ⟨p, "pending"⟩ := by
  induction ps generalizing store with
  | nil => cases hmem
  | cons q ps ih =>
    have hstep : add_to_todo (q :: ps) store = add_to_todo ps (insertOrIgnore store q) := rfl
    rw [hstep]
    by_cases hpq : p = q
    · subst hpq
      have hins : insertOrIgnore store p = store ++ [⟨p, "pending"⟩] := by
        simp [insertOrIgnore_eq_append, h]
      have hfound : findRecord (insertOrIgnore store p) p = some ⟨p, "pending"⟩ := by
        rw [hins]
        unfold findRecord
        rw [List.find?_append]
        have hnone : store.find? (fun r => r.photo_path == p) = none := by
          rw [List.find?_eq_none]
          intro r hr
          simp only [beq_iff_eq]
          intro hrp
          have := (hasPath_iff store p).mpr ⟨r, hr, hrp⟩
          simp [this] at h
        simp [hnone]
      have hkeep : hasPath (insertOrIgnore store p) p = true :=
        (hasPath_iff _ _).mpr ⟨⟨p, "pending"⟩, by simp [hins], rfl⟩
      rw [findRecord_add_to_todo_of_hasPath ps _ p hkeep, hfound]
    · have hmem2 : p ∈ ps := by
        rcases List.mem_cons.mp hmem with h1 | h1
        · exact absurd h1 hpq
        · exact h1
      have h2 : hasPath (insertOrIgnore store q) p = false := by
        by_contra hc
        have hb : hasPath (insertOrIgnore store q) p = true := by
          revert hc
          cases hasPath (insertOrIgnore store q) p <;> simp
        rcases (hasPath_insertOrIgnore store q p).mp hb with h3 | h3
        · simp [h3] at h
        · exact hpq h3
      exact ih (insertOrIgnore store q) hmem2 h2

theorem mem_read_todo_list (store : TodoStore) (p : String) :
    p ∈ read_todo_list store ↔
      ∃ r, r ∈ store ∧ r.photo_path = p ∧ r.status = "pending" := by
  simp only [read_todo_list, List.mem_map, List.mem_filter, beq_iff_eq]
  constructor
  · rintro ⟨r, ⟨hr, hst⟩, hp⟩
    exact ⟨r, hr, hp, hst⟩
  · rintro ⟨r, hr, hp, hst⟩
    exact ⟨r, ⟨hr, hst⟩, hp⟩

theorem remove_from_todo_mem (p : String) (store : TodoStore) (r : Record)
    (hr : r ∈ remove_from_todo p store) :
    (r.photo_path = p → r.status = "completed") ∧
      (r.status = "completed" ∨ r ∈ store) := by
  rcases List.mem_map.mp hr with ⟨r0, hr0, heq⟩
  by_cases hp : r0.photo_path = p
  · rw [if_pos hp] at heq
    subst heq
    exact ⟨fun _ => rfl, Or.inl rfl⟩
  · rw [if_neg hp] at heq
    subst heq
    exact ⟨fun hc => absurd hc hp, Or.inr hr0⟩

theorem remove_from_todo_completes (p : String) (store : TodoStore) (r : Record)
    (hr : r ∈ remove_from_todo p store) (hp : r.photo_path = p) :
    r.status = "completed" :=
  (remove_from_todo_mem p store r hr).1 hp

theorem upload_photo_store_eq (env : CloudEnv) (p : String) (a : Option String)
    (s : TodoStore) :
    (upload_photo env p a s).store =
      (if (upload_photo env p a s).ok then remove_from_todo p s else s) := by
  cases a with
  | none =>
    by_cases h : env.uploadSucceeds p <;> simp [upload_photo, h]
  | some name =>
    by_cases h1 : name ∈ env.albums
    · by_cases h : env.uploadSucceeds p <;> simp [upload_photo, h1, h]
    · by_cases h2 :
        name ∈ (if env.createSucceeds then env.albums ++ [name] else env.albums)
      · by_cases h : env.uploadSucceeds p <;> simp [upload_photo, h1, h2, h]
      · simp [upload_photo, h1, h2]

theorem main_retry_uploaded (hu authOk : Bool) (env : CloudEnv)
    (album : Option String) (store : TodoStore) :
    (main Mode.retry hu authOk env album store).uploaded = [] ∨
      (main Mode.retry hu authOk env album store).uploaded = read_todo_list store := by
  unfold main runPipeline
  cases hu <;> cases authOk <;> by_cases he : (read_todo_list store).isEmpty <;>
    simp [he]

theorem main_directory_uploaded (dir : Option (List String)) (hu authOk : Bool)
    (env : CloudEnv) (album : Option String) (store : TodoStore) :
    (main (Mode.directory dir) hu authOk env album store).uploaded = [] ∨
      (main (Mode.directory dir) hu authOk env album store).uploaded =
        scan_directory dir := by
  unfold main runPipeline
  cases hu <;> cases authOk <;> by_cases he : (scan_directory dir).isEmpty <;>
    simp [he]

/-- C1: read_todo_list returns exactly the paths whose record has status
pending; under the UNIQUE path constraint a path recorded as completed is
never returned, and therefore a retry run only ever submits paths whose
record is still pending. -/
theorem read_todo_list_pending_exactly (store : TodoStore) :
    (∀ p, p ∈ read_todo_list store ↔
        ∃ r, r ∈ store ∧ r.photo_path = p ∧ r.status = "pending") ∧
    (PathsNodup store → ∀ r ∈ store, r.status = "completed" →
        r.photo_path ∉ read_todo_list store) ∧
    (∀ hu authOk env album q,
        q ∈ (main Mode.retry hu authOk env album store).uploaded →
        ∃ r, r ∈ store ∧ r.photo_path = q ∧ r.status = "pending") := by
  refine ⟨fun p => mem_read_todo_list store p, ?_, ?_⟩
  · intro hnd r hr hc hmem
    rcases (mem_read_todo_list store r.photo_path).mp hmem with ⟨r2, hr2, hpath, hpend⟩
    have : r2 = r := List.inj_on_of_nodup_map hnd hr2 hr hpath
    subst this
    rw [hc] at hpend
    exact absurd hpend (by decide)
  · intro hu authOk env album q hq
    rcases main_retry_uploaded hu authOk env album store with h | h
    · rw [h] at hq
      cases hq
    · rw [h] at hq
      exact (mem_read_todo_list store q).mp hq

theorem read_todo_list_pending_exactly_witness :
    "b.jpg" ∉ read_todo_list demoStore :=
  (read_todo_list_pending_exactly demoStore).2.1 (by decide)
    ⟨"b.jpg", "completed"⟩ (by decide) rfl

/-- C3: add_to_todo deduplicates by path: a path already present in the
store gains no second row, and running add_to_todo twice with the same list
yields the same store as running it once. -/
theorem add_to_todo_dedup_and_idempotent (ps : List String) (store : TodoStore) :
    (∀ p, hasPath store p = true →
        countPath (add_to_todo ps store) p = countPath store p) ∧
    add_to_todo ps (add_to_todo ps store) = add_to_todo ps store := by
  refine ⟨fun p h => countPath_add_to_todo ps store p h, ?_⟩
  apply add_to_todo_id_of_all_present
  intro p hp
  exact (hasPath_add_to_todo ps store p).mpr (Or.inr hp)

theorem add_to_todo_dedup_and_idempotent_witness :
    countPath (add_to_todo ["b.jpg", "c.jpg"] demoStore) ("b.jpg") =
      countPath demoStore ("b.jpg") :=
  (add_to_todo_dedup_and_idempotent ["b.jpg", "c.jpg"] demoStore).1 ("b.jpg")
    (by decide)

/-- C4: a failed upload performs no write to the todo store: the store is
returned unchanged, so a pending record is still pending and its path is
produced again by read_todo_list for the next retry run. -/
theorem upload_photo_failure_no_write (env : CloudEnv) (p : String)
    (album : Option String) (store : TodoStore)
    (hfail : (upload_photo env p album store).ok = false) :
    (upload_photo env p album store).store = store ∧
    (∀ r, r ∈ store → r.photo_path = p → r.status = "pending" →
        p ∈ read_todo_list (upload_photo env p album store).store) := by
  have hs : (upload_photo env p album store).store = store := by
    have h := upload_photo_store_eq env p album store
    rw [hfail] at h
    simpa using h
  refine ⟨hs, ?_⟩
  intro r hr hpath hpend
  rw [hs]
  exact (mem_read_todo_list store p).mpr ⟨r, hr, hpath, hpend⟩

theorem upload_photo_failure_no_write_witness :
    (upload_photo envFail ("a.jpg") none demoStore).store = demoStore ∧
    "a.jpg" ∈ read_todo_list (upload_photo envFail ("a.jpg") none demoStore).store := by
  have h := upload_photo_failure_no_write envFail ("a.jpg") none demoStore (by decide)
  exact ⟨h.1, h.2 ⟨"a.jpg", "pending"⟩ (by decide) rfl rfl⟩

/-- C5: add_to_todo only appends fresh pending rows after the existing
rows and never modifies an existing record; in particular a record already
completed keeps its status when the scan results containing its path are
added again. -/
theorem add_to_todo_preserves_existing_records (ps : List String)
    (store : TodoStore) :
    (∃ t, add_to_todo ps store = store ++ t ∧ ∀ r ∈ t, r.status = "pending") ∧
    (∀ p, hasPath store p = true →
        findRecord (add_to_todo ps store) p = findRecord store p) :=
  ⟨add_to_todo_shape ps store,
    fun p h => findRecord_add_to_todo_of_hasPath ps store p h⟩

theorem add_to_todo_preserves_existing_records_witness :
    findRecord (add_to_todo (scan_directory (some ["b.jpg", "d.png"])) demoStore)
        ("b.jpg") = some ⟨"b.jpg", "completed"⟩ := by
  have h := (add_to_todo_preserves_existing_records
      (scan_directory (some ["b.jpg", "d.png"])) demoStore).2 ("b.jpg") (by decide)
  rw [h]
  decide

/-- C2 counterexample: at a concrete failing upload the tracked record
keeps status pending and no record ever receives status failed, refuting
the claim that a failed upload sets the status to failed. -/
theorem upload_failure_not_marked_failed :
    (upload_photo envFail ("a.jpg") none demoStore).ok = false ∧
    findRecord (upload_photo envFail ("a.jpg") none demoStore).store ("a.jpg") =
      some ⟨"a.jpg", "pending"⟩ ∧
    ∀ r ∈ (upload_photo envFail ("a.jpg") none demoStore).store,
      r.status ≠ "failed" := by
  decide

/-- C2 amended: an upload attempt on a tracked path mutates its record to
completed exactly on success; on failure the store is not written at all,
so the record keeps its previous status, and all statuses stay within
pending and completed. -/
theorem upload_photo_status_transitions (env : CloudEnv) (p : String)
    (album : Option String) (store : TodoStore)
    (hw : ∀ r ∈ store, r.status = "pending" ∨ r.status = "completed") :
    ((upload_photo env p album store).ok = true →
        ∀ r ∈ (upload_photo env p album store).store,
          r.photo_path = p → r.status = "completed") ∧
    ((upload_photo env p album store).ok = false →
        (upload_photo env p album store).store = store) ∧
    (∀ r ∈ (upload_photo env p album store).store,
        r.status = "pending" ∨ r.status = "completed") := by
  have hs := upload_photo_store_eq env p album store
  cases hok : (upload_photo env p album store).ok
  · rw [hok] at hs
    simp at hs
    refine ⟨fun h => absurd h (by decide), fun _ => hs, ?_⟩
    rw [hs]
    exact hw
  · rw [hok] at hs
    simp at hs
    refine ⟨?_, fun h => absurd h (by decide), ?_⟩
    · intro _ r hr hp
      rw [hs] at hr
      exact remove_from_todo_completes p store r hr hp
    · intro r hr
      rw [hs] at hr
      rcases (remove_from_todo_mem p store r hr).2 with h | h
      · exact Or.inr h
      · exact hw r h

theorem upload_photo_status_transitions_witness :
    (upload_photo envFail ("a.jpg") none demoStore).store = demoStore :=
  (upload_photo_status_transitions envFail ("a.jpg") none demoStore (by decide)).2.1
    (by decide)

/-- C6: scan_directory keeps exactly the walked files whose filename
suffix, compared case-insensitively, is .jpg or .jpeg, and in directory
mode only such files are ever submitted for upload. -/
theorem scan_directory_exactly_jpegs (files : List String) :
    (∀ p, p ∈ scan_directory (some files) ↔ p ∈ files ∧ is_photo_file p = true) ∧
    (∀ p, is_photo_file p = true ↔
        (lowerString (pathSuffix p) = ".jpg" ∨ lowerString (pathSuffix p) = ".jpeg")) ∧
    (∀ hu authOk env album store q,
        q ∈ (main (Mode.directory (some files)) hu authOk env album store).uploaded →
        q ∈ files ∧ is_photo_file q = true) := by
  refine ⟨?_, ?_, ?_⟩
  · intro p
    simp [scan_directory, List.mem_filter]
  · intro p
    simp [is_photo_file, PHOTO_EXTENSIONS]
  · intro hu authOk env album store q hq
    rcases main_directory_uploaded (some files) hu authOk env album store with h | h
    · rw [h] at hq
      cases hq
    · rw [h] at hq
      simpa [scan_directory, List.mem_filter] using hq

theorem scan_directory_exactly_jpegs_witness :
    "photos/a.JPG" ∈ scan_directory (some ["photos/a.JPG", "photos/b.png"]) :=
  ((scan_directory_exactly_jpegs ["photos/a.JPG", "photos/b.png"]).1
    ("photos/a.JPG")).mpr ⟨by decide, by decide⟩

/-- C7: in directory mode the scan results are persisted as pending rows
before authentication is attempted, and when authentication fails the run
exits with code 1, submits no upload task, and the newly added pending
rows are still in the store. -/
theorem directory_mode_persists_before_auth (files : List String)
    (env : CloudEnv) (album : Option String) (store0 : TodoStore)
    (hscan : scan_directory (some files) ≠ []) :
    (main (Mode.directory (some files)) true false env album store0).exitCode = 1 ∧
    (main (Mode.directory (some files)) true false env album store0).authAttempted
      = true ∧
    (main (Mode.directory (some files)) true false env album store0).uploaded = [] ∧
    (main (Mode.directory (some files)) true false env album store0).store =
      add_to_todo (scan_directory (some files)) store0 ∧
    (∀ p ∈ scan_directory (some files),
        hasPath (main (Mode.directory (some files)) true false env album store0).store p
          = true) ∧
    (∀ p ∈ scan_directory (some files), hasPath store0 p = false →
        findRecord
            (main (Mode.directory (some files)) true false env album store0).store p
          = some ⟨p, "pending"⟩) := by
  have hne : (scan_directory (some files)).isEmpty = false := by
    cases hsd : scan_directory (some files)
    · exact absurd hsd hscan
    · rfl
  have hmain : main (Mode.directory (some files)) true false env album store0 =
      ⟨1, add_to_todo (scan_directory (some files)) store0, true, [], none, none⟩ := by
    unfold main runPipeline
    simp [hne]
  rw [hmain]
  refine ⟨rfl, rfl, rfl, rfl, ?_, ?_⟩
  · intro p hp
    exact (hasPath_add_to_todo _ _ _).mpr (Or.inr hp)
  · intro p hp hfresh
    exact findRecord_add_to_todo_fresh _ store0 p hp hfresh

theorem directory_mode_persists_before_auth_witness :
    (main (Mode.directory (some ["x.jpg"])) true false envFail none []).exitCode = 1 ∧
    (main (Mode.directory (some ["x.jpg"])) true false envFail none []).store =
      add_to_todo (scan_directory (some ["x.jpg"])) [] := by
  have h := directory_mode_persists_before_auth ["x.jpg"] envFail none [] (by decide)
  exact ⟨h.1, h.2.2.2.1⟩

/-- C8: with no album name upload_photo performs exactly the Camera Roll
call api.photos.upload_file; the album-targeted calls occur only when an
album name is given, and then upload_file is never called. -/
theorem upload_photo_default_camera_roll (env : CloudEnv) (p : String)
    (store : TodoStore) :
    (upload_photo env p none store).calls = [ApiCall.uploadFile p] ∧
    (∀ name, ApiCall.uploadFile p ∉ (upload_photo env p (some name) store).calls ∧
        ApiCall.listAlbums ∈ (upload_photo env p (some name) store).calls) := by
  constructor
  · by_cases h : env.uploadSucceeds p <;> simp [upload_photo, h]
  · intro name
    by_cases h1 : name ∈ env.albums
    · by_cases h : env.uploadSucceeds p <;> simp [upload_photo, h1, h]
    · by_cases h2 :
        name ∈ (if env.createSucceeds then env.albums ++ [name] else env.albums)
      · by_cases h : env.uploadSucceeds p <;> simp [upload_photo, h1, h2, h]
      · simp [upload_photo, h1, h2]

theorem upload_photo_default_camera_roll_witness :
    (upload_photo envOk ("a.jpg") none demoStore).calls =
      [ApiCall.uploadFile ("a.jpg")] :=
  (upload_photo_default_camera_roll envOk ("a.jpg") demoStore).1

/-- C10: stats mode reports the pending and completed counts read from the
store and exits 0; the store is returned unchanged, no authentication is
attempted, and no upload is submitted. -/
theorem stats_mode_frame (hu authOk : Bool) (env : CloudEnv)
    (album : Option String) (store : TodoStore) :
    main Mode.stats hu authOk env album store =
      ⟨0, store, false, [], some (countStatus store ("pending")),
        some (countStatus store ("completed"))⟩ :=
  rfl

end PhotoUploader

namespace MediaLister

theorem sizeGe_trans (a b c : MediaItem) (h1 : sizeGe a b) (h2 : sizeGe b c) :
    sizeGe a c := by
  simp only [sizeGe, decide_eq_true_eq] at *
  omega

theorem sizeGe_total (a b : MediaItem) : sizeGe a b || sizeGe b a := by
  simp only [sizeGe, Bool.or_eq_true, decide_eq_true_eq]
  omega

theorem applyLimit_sublist (limit : Option Int) (l : List MediaItem) :
    List.Sublist (applyLimit limit l) l := by
  cases limit with
  | none => exact List.Sublist.refl l
  | some n =>
    simp only [applyLimit]
    split
    · exact List.take_sublist _ _
    · exact List.Sublist.refl l

/-- C9: the reporting pipeline sorts the filtered media by size in
non-increasing order before the limit is applied, so every printed entry is
at least as large as the following one, and every printed entry comes from
the filtered list. -/
theorem lister_report_sorted_and_subset (mediaType : String)
    (minBytes : Option Nat) (limit : Option Int) (media : List MediaItem) :
    List.Pairwise (fun a b => b.size ≤ a.size)
        (listerPipeline mediaType minBytes limit media) ∧
    (∀ x, x ∈ listerPipeline mediaType minBytes limit media →
        x ∈ filterMinSize minBytes (filterByType mediaType media)) := by
  have hsorted :
      ((filterMinSize minBytes (filterByType mediaType media)).mergeSort
          sizeGe).Pairwise (fun a b => b.size ≤ a.size) := by
    have h := List.sorted_mergeSort sizeGe_trans sizeGe_total
      (filterMinSize minBytes (filterByType mediaType media))
    exact h.imp (fun hab => by simpa [sizeGe] using hab)
  constructor
  · exact List.Pairwise.sublist (applyLimit_sublist limit _) hsorted
  · intro x hx
    have hx2 : x ∈ (filterMinSize minBytes (filterByType mediaType media)).mergeSort
        sizeGe := (applyLimit_sublist limit _).subset hx
    simpa using hx2

theorem lister_report_sorted_and_subset_witness :
    (⟨"b.mov", 100, some 7⟩ : MediaItem) ∈
      filterMinSize (some 10) (filterByType ("all") demoMedia) :=
  (lister_report_sorted_and_subset ("all") (some 10) none demoMedia).2
    ⟨"b.mov", 100, some 7⟩
    (by simp [listerPipeline, applyLimit, filterMinSize, filterByType, demoMedia])

end MediaLister
